import Mathlib

/-!
Shallow embedding of the TildagonTetris simulation engine (src/app.py).

The rendering, button-reading and host-lifecycle glue of the source are
modelled as external inputs: `update` receives the already-decoded button
press for the frame (the `button_states` elif chain of lines 212-225) and
the pieces that `randomPiece()` would return (the source draws them with
`random.choice` / `random.randint`; here they are parameters, so theorems
quantify over every possible draw).

Board cells are Python lists of lists grown dynamically by `setBlock`;
they are modelled as `List (List (Option Piece))` with the same ragged
growth.  All integer arithmetic of the source is exact (Python ints), so
`Nat`/`Int` are used directly.
-/

namespace Tetris

/-- Game constants (src/app.py lines 28-32). -/
def DIR_UP : Nat := 0
def DIR_RIGHT : Nat := 1
def DIR_DOWN : Nat := 2
def DIR_LEFT : Nat := 3
def DIR_MIN : Nat := 0
def DIR_MAX : Nat := 3

/-- Width of the tetris court in blocks (`nx = 12`). -/
def nx : Nat := 12

/-- Height of the tetris court in blocks (`ny = 15`). -/
def ny : Nat := 15

/-- RGB colour record of a piece (used only by rendering). -/
structure Color where
  r : Nat
  g : Nat
  b : Nat
deriving DecidableEq

/-- A piece kind: the `i`/`j`/`l`/`o`/`s`/`t`/`z` dicts of the source.
`blocks` holds the four 16-bit rotation masks. -/
structure Piece where
  size : Nat
  blocks : List Nat
  color : Color
deriving DecidableEq

def pieceI : Piece := ⟨4, [0x0F00, 0x2222, 0x00F0, 0x4444], ⟨0, 255, 255⟩⟩
def pieceJ : Piece := ⟨3, [0x44C0, 0x8E00, 0x6440, 0x0E20], ⟨0, 0, 255⟩⟩
def pieceL : Piece := ⟨3, [0x4460, 0x0E80, 0xC440, 0x2E00], ⟨255, 165, 0⟩⟩
def pieceO : Piece := ⟨2, [0xCC00, 0xCC00, 0xCC00, 0xCC00], ⟨255, 255, 0⟩⟩
def pieceS : Piece := ⟨3, [0x06C0, 0x8C40, 0x6C00, 0x4620], ⟨0, 255, 0⟩⟩
def pieceT : Piece := ⟨3, [0x0E40, 0x4C40, 0x4E00, 0x4640], ⟨128, 0, 128⟩⟩
def pieceZ : Piece := ⟨3, [0x0C60, 0x4C80, 0xC600, 0x2640], ⟨255, 0, 0⟩⟩

/-- The falling piece: the dict returned by `randomPiece()`
(`type`, `dir`, `x`, `y`).  Coordinates are `Int` because `move` forms
candidate positions such as `x - 1` before they are validated. -/
structure ActivePiece where
  type : Piece
  dir : Nat
  x : Int
  y : Int
deriving DecidableEq

/-- The occupied absolute cells of a piece at `(x, y)` with rotation
`dir`: the source's `eachblock` (lines 111-123) scans `bit = 0x8000`
down to bit 0, visiting `(x + col, y + row)` with `col = i % 4`,
`row = i / 4` for the `i`-th bit counted from the most significant.
`eachblock` is a callback iterator; per the visiting order it is the
left fold over this list.  `blocks[dir]` is in range at every caller
(`dir` is always 0-3), modelled with `getD`. -/
def pieceCells (t : Piece) (x y : Int) (dir : Nat) : List (Int × Int) :=
  (List.range 16).filterMap fun i =>
    if (t.blocks.getD dir 0).testBit (15 - i) then
      some (x + (i % 4 : Nat), y + (i / 4 : Nat))
    else none

/-- The tetris court: `blocks[x][y]`, a dynamically grown list of
columns, each a dynamically grown list of cells (empty = `none`). -/
abbrev Blocks := List (List (Option Piece))

/-- `getBlock` (lines 277-280) for non-negative coordinates: the
source's guard `blocks and x < len(blocks) and y < len(blocks[x])`
followed by `blocks[x][y]` is exactly the double `getD` with defaults
`[]` and `none` (an out-of-length index yields `None`).  Every internal
caller passes non-negative indices; the full Python semantics at
arbitrary `Int` coordinates, including negative indexing, is
`getBlockPy` below. -/
def getBlock (bs : Blocks) (x y : Nat) : Option Piece :=
  (bs.getD x []).getD y none

/-- Python `l[i]` on a list: non-negative in-range indices read
directly, negative indices wrap from the end, anything else raises
`IndexError` (modelled as `none`). -/
def pyIdx {α : Type} (l : List α) (i : Int) : Option α :=
  if 0 ≤ i then l.get? i.toNat
  else if 0 ≤ i + l.length then l.get? (i + l.length).toNat
  else none

/-- `getBlock` (lines 277-280) at arbitrary `Int` coordinates with full
Python semantics.  `some v` is a returned value (`v = none` is Python
`None`); an outer `none` is a raised `IndexError`.  The guard evaluates
`self.blocks`, then `x < len(self.blocks)`, then `self.blocks[x]`
(which can wrap or raise for negative `x`), then `y < len(...)`, then
indexes the column. -/
def getBlockPy (bs : Blocks) (x y : Int) : Option (Option Piece) :=
  if bs = [] then some none
  else if x < (bs.length : Int) then
    match pyIdx bs x with
    | none => none
    | some col =>
      if y < (col.length : Int) then pyIdx col y
      else some none
  else some none

/-- The `extend` calls of `setBlock`: pad `l` with copies of `d` so
that index `n` exists (`l.extend([d] * (n - len(l) + 1))` under the
`n >= len(l)` guard). -/
def padTo {α : Type} (l : List α) (n : Nat) (d : α) : List α :=
  if l.length ≤ n then l ++ List.replicate (n + 1 - l.length) d else l

/-- `setBlock` (lines 282-287): extend the column list out to index
`x` with fresh empty columns, extend column `x` out to index `y` with
`None`, then write the cell. -/
def setBlock (bs : Blocks) (x y : Nat) (t : Option Piece) : Blocks :=
  let bs1 := padTo bs x []
  bs1.set x ((padTo (bs1.getD x []) y none).set y t)

/-- `occupied` (lines 129-144): true iff some occupied cell of the
piece is out of bounds or already holds a block.  The source latches
`result` via the `isOccupied` callback over `eachblock`; the latch of
an or over all visited cells is `List.any`.  `getBlock` is reached only
when the cell is in bounds (Python short-circuit `or`), so the
non-negative `getBlock` is faithful here. -/
def occupied (bs : Blocks) (t : Piece) (x y : Int) (dir : Nat) : Bool :=
  (pieceCells t x y dir).any fun c =>
    decide (c.1 < 0) || decide ((nx : Int) ≤ c.1) || decide (c.2 < 0) || decide ((ny : Int) ≤ c.2) ||
      (getBlock bs c.1.toNat c.2.toNat).isSome

/-- `unoccupied` (lines 146-147). -/
def unoccupied (bs : Blocks) (t : Piece) (x y : Int) (dir : Nat) : Bool :=
  !occupied bs t x y dir

/-- The full mutable game state of the class (lines 39-52): the fields
touched by the simulation.  Pixel sizes, `button_states` and
`notification` are rendering/host state and stay outside the model. -/
structure State where
  blocks : Blocks
  actions : List Nat
  playing : Bool
  dt : Nat
  current : ActivePiece
  next : ActivePiece
  score : Nat
  vscore : Nat
  rows : Nat
  step : Nat
  lost : Bool
deriving DecidableEq

/-- `lose` (lines 249-251). -/
def lose (s : State) : State :=
  { s with playing := false, lost := true }

/-- `addScore` (lines 260-261): touches `score` only. -/
def addScore (s : State) (n : Nat) : State :=
  { s with score := s.score + n }

/-- `setRows` (lines 269-272): stores `rows` and resets `step` to the
constant 500 (the difficulty ramp is commented out in the source). -/
def setRows (s : State) (n : Nat) : State :=
  { s with rows := n, step := 500 }

/-- `addRows` (lines 274-275). -/
def addRows (s : State) (n : Nat) : State :=
  setRows s (s.rows + n)

/-- `move` (lines 322-336): apply the one-cell offset of `dir` (the
`if`/`elif` chain: RIGHT, LEFT, DOWN; any other value leaves the
coordinates unchanged), commit when `unoccupied` and return whether
the move happened. -/
def move (s : State) (dir : Nat) : Bool × State :=
  let c :=
    if dir = DIR_RIGHT then (s.current.x + 1, s.current.y)
    else if dir = DIR_LEFT then (s.current.x - 1, s.current.y)
    else if dir = DIR_DOWN then (s.current.x, s.current.y + 1)
    else (s.current.x, s.current.y)
  if unoccupied s.blocks s.current.type c.1 c.2 s.current.dir then
    (true, { s with current := { s.current with x := c.1, y := c.2 } })
  else (false, s)

/-- `rotate` (lines 338-347): candidate direction wraps from `MAX` to
`MIN`, otherwise increments; commit only when the piece is free at the
unchanged position with the candidate rotation. -/
def rotate (s : State) : State :=
  let newdir := if s.current.dir = DIR_MAX then DIR_MIN else s.current.dir + 1
  if unoccupied s.blocks s.current.type s.current.x s.current.y newdir then
    { s with current := { s.current with dir := newdir } }
  else s

/-- Writing a list of cells into the court: the `eachblock` fold of
`dropPiece`.  Every caller establishes non-negative coordinates (the
locked piece sits at a validated position), so `toNat` is exact there;
Python list indexing would wrap or raise for a negative coordinate. -/
def lock (bs : Blocks) (cs : List (Int × Int)) (t : Piece) : Blocks :=
  cs.foldl (fun b c => setBlock b c.1.toNat c.2.toNat (some t)) bs

/-- `dropPiece` (lines 365-372): write every occupied cell of the
current piece into the board. -/
def dropPiece (s : State) : State :=
  { s with blocks := lock s.blocks (pieceCells s.current.type s.current.x s.current.y s.current.dir) s.current.type }

/-- One row copy of `removeLine` (line 392-393): for each `x < nx`,
`setBlock(x, y, getBlock(x, y - 1))` over the evolving board. -/
def copyRow (bs : Blocks) (y : Nat) : Blocks :=
  (List.range nx).foldl (fun b x => setBlock b x y (getBlock b x (y - 1))) bs

/-- `removeLine` (lines 390-393): `for y in range(n, 0, -1)` copies row
`y - 1` into row `y`, from row `n` up to row `1`.  Row 0 is outside the
loop range and is never written. -/
def removeLine (bs : Blocks) : Nat → Blocks
  | 0 => bs
  | n + 1 => removeLine (copyRow bs (n + 1)) n

/-- Row `y` is complete (lines 377-381): every column `x < nx` holds a
block.  The source's early-`break` latch of `complete` is the `all`. -/
def rowComplete (bs : Blocks) (y : Nat) : Bool :=
  (List.range nx).all fun x => (getBlock bs x y).isSome

/-- One step of the `removeLines` scan at row `y`: remove the row and
count it when complete.  The source's `y += 1` after `removeLine(y)`
(line 384) has no effect: the next iteration of the Python `for` loop
reassigns `y` from the `range` iterator. -/
def scanStep (acc : Blocks × Nat) (y : Nat) : Blocks × Nat :=
  if rowComplete acc.1 y then (removeLine acc.1 y, acc.2 + 1) else acc

/-- The scan of `removeLines` (lines 374-385): visit rows
`ny - 1, …, 0` (Python `range(ny - 1, -1, -1)`), returning the final
board and the number of removed rows. -/
def removeLinesScan (bs : Blocks) : Blocks × Nat :=
  ((List.range ny).reverse).foldl scanStep (bs, 0)

/-- `removeLines` (lines 374-388): run the scan; if `n > 0`, add `n`
to `rows` and `100 * 2 ^ (n - 1)` to `score`. -/
def removeLines (s : State) : State :=
  let r := removeLinesScan s.blocks
  let s1 := { s with blocks := r.1 }
  if r.2 > 0 then addScore (addRows s1 r.2) (100 * 2 ^ (r.2 - 1)) else s1

/-- `drop` (lines 349-363).  `p` stands for the piece `randomPiece()`
returns for the new `next`; the source draws it randomly, here it is
an input so theorems cover every draw. -/
def drop (s : State) (p : ActivePiece) : State :=
  let m := move s DIR_DOWN
  if m.1 then m.2
  else
    let s1 := addScore m.2 10
    let s2 := dropPiece s1
    let s3 := removeLines s2
    let s4 := { s3 with current := s3.next, next := p, actions := [] }
    if occupied s4.blocks s4.current.type s4.current.x s4.current.y s4.current.dir then
      lose s4
    else s4

/-- `handle` (lines 312-320): dispatch a dequeued action (`none` when
the queue was empty matches no branch). -/
def handle (s : State) (a : Option Nat) (p : ActivePiece) : State :=
  if a = some DIR_LEFT then (move s DIR_LEFT).2
  else if a = some DIR_RIGHT then (move s DIR_RIGHT).2
  else if a = some DIR_UP then rotate s
  else if a = some DIR_DOWN then drop s p
  else s

/-- The button pressed during a frame, as decoded by the
`button_states` elif chain of `update` (lines 212-225): at most one of
CANCEL, LEFT, RIGHT, UP, DOWN. -/
inductive Button where
  | cancel
  | left
  | right
  | up
  | down
deriving DecidableEq

/-- `self.actions.pop(0) if self.actions else None` (line 230). -/
def popAction (s : State) : Option Nat × State :=
  match s.actions with
  | [] => (none, s)
  | a :: rest => (some a, { s with actions := rest })

/-- The `elif self.playing` button branch of `update` (lines 216-225):
append the direction code of the pressed button, if any, to the action
queue (the UP branch additionally clears host button state, which is
outside the model). -/
def pushButton (s : State) (btn : Option Button) : State :=
  match btn with
  | some Button.left => { s with actions := s.actions ++ [DIR_LEFT] }
  | some Button.right => { s with actions := s.actions ++ [DIR_RIGHT] }
  | some Button.up => { s with actions := s.actions ++ [DIR_UP] }
  | some Button.down => { s with actions := s.actions ++ [DIR_DOWN] }
  | _ => s

/-- `update` (lines 211-240).  `btn` is the decoded button press for
the frame (none when no button is down); `p1` and `p2` are the pieces
`randomPiece()` would return for the drop reached through `handle` and
for the auto-drop respectively (each `drop` call draws at most one).
CANCEL loses the game (`minimise` and `button_states` are host state);
otherwise, while playing, the pressed direction is appended to the
action queue.  Then, if playing: catch `vscore` up by one, dequeue and
dispatch one action, advance the clock and auto-drop on an `if` (a
single subtraction and a single `drop` per call).  Finally a set
`lost` flag is consumed (the GameOver notification is rendering).
This doc describes `update` below; `tickPlay` is its
`if self.playing:` block (lines 227-235): catch the displayed score up
by one, dequeue and dispatch one action, advance the clock and
auto-drop on a single `if`. -/
def tickPlay (s1 : State) (delta : Nat) (p1 p2 : ActivePiece) : State :=
  if s1.playing then
    let sA := if s1.vscore < s1.score then { s1 with vscore := s1.vscore + 1 } else s1
    let pa := popAction sA
    let sB := handle pa.2 pa.1 p1
    let sC := { sB with dt := sB.dt + delta }
    if sC.dt > sC.step then drop { sC with dt := sC.dt - sC.step } p2 else sC
  else s1

def update (s0 : State) (delta : Nat) (btn : Option Button) (p1 p2 : ActivePiece) : State :=
  let s1 :=
    if btn = some Button.cancel then lose s0
    else if s0.playing then pushButton s0 btn
    else s0
  let s2 := tickPlay s1 delta p1 p2
  if s2.lost then { s2 with lost := false } else s2

/-- A board within the court's dimensions: at most `nx` columns, each
of height at most `ny`.  Every board the game ever builds satisfies
this (`setBlock` is only ever called with court coordinates). -/
def boardOK (bs : Blocks) : Prop :=
  bs.length ≤ nx ∧ ∀ col ∈ bs, col.length ≤ ny

instance boardOK_decidable (bs : Blocks) : Decidable (boardOK bs) := by
  unfold boardOK
  infer_instance

/-- Every occupied cell of the piece at its placement lies within the
court `[0, nx) × [0, ny)`. -/
def cellsWithin (p : ActivePiece) : Prop :=
  ∀ c ∈ pieceCells p.type p.x p.y p.dir,
    0 ≤ c.1 ∧ c.1 < (nx : Int) ∧ 0 ≤ c.2 ∧ c.2 < (ny : Int)

instance cellsWithin_decidable (p : ActivePiece) : Decidable (cellsWithin p) := by
  unfold cellsWithin
  infer_instance

/-- The state invariant maintained by ticking: the board stays within
its court bounds, the active piece is placed free of the board (in
bounds and non-overlapping) whenever the game is still playing, and
the cells of the active and next pieces lie within the court. -/
def Inv (s : State) : Prop :=
  boardOK s.blocks ∧
  (s.playing = true →
    occupied s.blocks s.current.type s.current.x s.current.y s.current.dir = false) ∧
  cellsWithin s.current ∧
  cellsWithin s.next

instance Inv_decidable (s : State) : Decidable (Inv s) := by
  unfold Inv
  infer_instance

/-! ### Concrete boards and states used as test inputs -/

/-- A board whose bottom two rows (13 and 14) are both complete and
whose other rows are empty. -/
def stackBoard : Blocks :=
  List.replicate 12 (List.replicate 13 none ++ [some pieceZ, some pieceZ])

/-- A board whose rows 0 and 1 are both complete (12 full columns of
height 2). -/
def rowZeroBoard : Blocks :=
  List.replicate 12 [some pieceZ, some pieceZ]

/-- A board with a single full bottom row of height 1 (every column is
`[some pieceZ]`). -/
def wrapBoard : Blocks :=
  List.replicate 12 [some pieceZ]

/-- A freshly spawned O piece at the left edge. -/
def oSpawn : ActivePiece := ⟨pieceO, 0, 0, 0⟩

/-- A playing state on an empty board with the O piece at the top. -/
def clockState : State :=
  ⟨[], [], true, 0, ⟨pieceO, 0, 0, 0⟩, oSpawn, 0, 0, 0, 500, false⟩

/-- A playing state about to lose: one block at cell (0, 0), the
current O piece resting on the floor at (5, 13), and the next piece an
O spawning at (0, 0) on top of the placed block. -/
def loseState : State :=
  ⟨setBlock [] 0 0 (some pieceZ), [], true, 0, ⟨pieceO, 0, 5, 13⟩, oSpawn, 0, 0, 0, 500, false⟩

/-- A playing state whose current O piece rests on the floor at
(0, 13) of an empty board. -/
def lockState : State :=
  ⟨[], [], true, 0, ⟨pieceO, 0, 0, 13⟩, ⟨pieceS, 0, 4, 0⟩, 0, 0, 0, 500, false⟩

/-- A playing state whose current O piece floats free at (5, 5) of an
empty board. -/
def freeState : State :=
  ⟨[], [], true, 0, ⟨pieceO, 0, 5, 5⟩, oSpawn, 0, 0, 0, 500, false⟩

/-! ### Basic board lemmas -/

theorem getD_padTo {α : Type} (l : List α) (n i : Nat) (d : α) :
    (padTo l n d).getD i d = l.getD i d := by
  unfold padTo
  by_cases h : l.length ≤ n
  · rw [if_pos h]
    rcases Nat.lt_or_ge i l.length with hi | hi
    · simp [List.getD_eq_getElem?_getD, List.getElem?_append, hi]
    · rw [List.getD_eq_getElem?_getD, List.getD_eq_getElem?_getD,
        List.getElem?_append_right hi, List.getElem?_replicate,
        List.getElem?_eq_none hi]
      by_cases hk : i - l.length < n + 1 - l.length <;> simp [hk]
  · rw [if_neg h]

theorem lt_length_padTo {α : Type} (l : List α) (n : Nat) (d : α) :
    n < (padTo l n d).length := by
  unfold padTo
  by_cases h : l.length ≤ n
  · rw [if_pos h]
    simp only [List.length_append, List.length_replicate]
    omega
  · rw [if_neg h]
    omega

theorem getD_set {α : Type} (l : List α) (i j : Nat) (a d : α) (h : i < l.length) :
    (l.set i a).getD j d = if i = j then a else l.getD j d := by
  rw [List.getD_eq_getElem?_getD, List.getElem?_set]
  by_cases hij : i = j
  · subst hij
    simp [h]
  · simp [hij, ← List.getD_eq_getElem?_getD]

/-- The fundamental cell-level description of `setBlock`: reading back
any cell after a write returns the written value at the written
coordinates and is otherwise unchanged (padding writes only default
values, which read back identically to absent cells). -/
theorem getBlock_setBlock (bs : Blocks) (x y : Nat) (t : Option Piece) (a b : Nat) :
    getBlock (setBlock bs x y t) a b = if x = a ∧ y = b then t else getBlock bs a b := by
  have hx : x < (padTo bs x ([] : List (Option Piece))).length := lt_length_padTo bs x []
  have hy : y < (padTo ((padTo bs x ([] : List (Option Piece))).getD x []) y (none : Option Piece)).length :=
    lt_length_padTo _ y none
  unfold getBlock
  rw [show setBlock bs x y t
      = (padTo bs x []).set x ((padTo ((padTo bs x []).getD x []) y none).set y t) from rfl]
  rw [getD_set _ _ _ _ _ hx]
  by_cases hxa : x = a
  · rw [if_pos hxa]
    rw [getD_set _ _ _ _ _ hy]
    subst hxa
    by_cases hyb : y = b
    · simp [hyb]
    · rw [if_neg hyb, getD_padTo, getD_padTo]
      simp [hyb]
  · rw [if_neg hxa, getD_padTo]
    simp [hxa]

/-! ### Row shifting (`removeLine`) -/

/-- Cell-level description of the inner loop of `removeLine` run over
an arbitrary list of column indices: each listed column gets row
`y - 1`'s prior content copied into row `y`; everything else is
untouched.  Reads of row `y - 1` during the fold are unaffected by the
writes because every write lands in row `y ≠ y - 1`. -/
theorem getBlock_copyFold (y : Nat) (hy : 1 ≤ y) :
    ∀ (xs : List Nat) (bs : Blocks) (a b : Nat),
      getBlock (xs.foldl (fun bb x => setBlock bb x y (getBlock bb x (y - 1))) bs) a b
        = if a ∈ xs ∧ b = y then getBlock bs a (y - 1) else getBlock bs a b := by
  intro xs
  induction xs with
  | nil =>
    intro bs a b
    simp
  | cons x xs ih =>
    intro bs a b
    rw [List.foldl_cons, ih, getBlock_setBlock, getBlock_setBlock]
    by_cases h1 : a ∈ xs ∧ b = y
    · rw [if_pos h1, if_neg (by rintro ⟨-, hc⟩; omega : ¬(x = a ∧ y = y - 1)),
        if_pos (⟨List.mem_cons_of_mem x h1.1, h1.2⟩ : a ∈ x :: xs ∧ b = y)]
    · rw [if_neg h1]
      by_cases h2 : x = a ∧ y = b
      · rw [if_pos h2,
          if_pos (show a ∈ x :: xs ∧ b = y from ⟨by rw [← h2.1]; exact List.mem_cons_self x xs, h2.2.symm⟩),
          h2.1]
      · rw [if_neg h2, if_neg (show ¬(a ∈ x :: xs ∧ b = y) by
          rintro ⟨hm, hb⟩
          rcases List.mem_cons.mp hm with h | h
          · exact h2 ⟨h.symm, hb.symm⟩
          · exact h1 ⟨h, hb⟩)]

/-- Cell-level description of `removeLine`: rows `1..r` receive the
prior content of the row above them (for the real columns `x < nx`),
row 0 and all rows beyond `r` keep their prior content. -/
theorem getBlock_removeLine (r : Nat) : ∀ (bs : Blocks) (a b : Nat),
    getBlock (removeLine bs r) a b
      = if a < nx ∧ 1 ≤ b ∧ b ≤ r then getBlock bs a (b - 1) else getBlock bs a b := by
  induction r with
  | zero =>
    intro bs a b
    rw [show removeLine bs 0 = bs from rfl, if_neg (by rintro ⟨-, h1, h2⟩; omega)]
  | succ n ih =>
    intro bs a b
    rw [removeLine]
    rw [ih]
    have hcr : ∀ c, getBlock (copyRow bs (n + 1)) a c
        = if a < nx ∧ c = n + 1 then getBlock bs a (n + 1 - 1) else getBlock bs a c := by
      intro c
      rw [copyRow, getBlock_copyFold (n + 1) (by omega)]
      simp [List.mem_range]
    rw [hcr, hcr]
    by_cases hb : a < nx ∧ 1 ≤ b ∧ b ≤ n
    · rw [if_pos hb, if_neg (by rintro ⟨-, hc⟩; omega : ¬(a < nx ∧ b - 1 = n + 1)),
        if_pos (show a < nx ∧ 1 ≤ b ∧ b ≤ n + 1 by omega)]
    · rw [if_neg hb]
      by_cases h2 : a < nx ∧ b = n + 1
      · rw [if_pos h2, if_pos (show a < nx ∧ 1 ≤ b ∧ b ≤ n + 1 by omega)]
        congr 1
        omega
      · rw [if_neg h2, if_neg (show ¬(a < nx ∧ 1 ≤ b ∧ b ≤ n + 1) by
          rintro ⟨hx, hy1, hy2⟩
          rcases Nat.lt_or_ge b (n + 1) with h | h
          · exact hb ⟨hx, hy1, by omega⟩
          · exact h2 ⟨hx, by omega⟩)]

/-- C2 counterexample: on a board whose rows 0 and 1 are both
complete, clearing the complete row 1 leaves row 0 still occupied.
The loop `for y in range(n, 0, -1)` of `removeLine` stops at row 1, so
row 0 keeps its prior content instead of becoming empty as the claim
states. -/
theorem removeLine_row_zero_not_cleared :
    rowComplete rowZeroBoard 1 = true ∧
      (getBlock (removeLine rowZeroBoard 1) 0 0).isSome = true := by
  constructor <;> decide

/-- C2 (amended): after `removeLine` on row `r`, each court cell in a
row `y` with `1 ≤ y ≤ r` holds what row `y - 1` held before, and every
other cell — row 0 included, which retains its prior content rather
than becoming empty, and every row below `r` — is unchanged. -/
theorem removeLine_shift_spec (bs : Blocks) (r x y : Nat) :
    getBlock (removeLine bs r) x y
      = if x < nx ∧ 1 ≤ y ∧ y ≤ r then getBlock bs x (y - 1) else getBlock bs x y :=
  getBlock_removeLine r bs x y

set_option maxRecDepth 100000 in
/-- C1: on a board whose rows 13 and 14 are both complete, a single
`removeLines` pass removes only one row and leaves a complete row 14
behind.  The `y += 1` after `removeLine(y)` is dead code in Python —
the `for` loop reassigns `y` from the `range` iterator — so row 14 is
not re-examined after the rows above shift into it, and a stack of two
consecutively complete rows does not collapse in one pass as the claim
and the source's evident intent require. -/
theorem removeLines_consecutive_rows_bug :
    (removeLinesScan stackBoard).2 = 1 ∧
      rowComplete (removeLinesScan stackBoard).1 14 = true := by
  constructor <;> decide

/-- C7: if a `removeLines` pass clears `n` rows, exactly `n` is added
to the completed-row count and exactly `100 * 2 ^ (n - 1)` to the
score when `n ≥ 1`; a pass clearing no rows adds nothing to either
(and the displayed score is never touched here). -/
theorem removeLines_scoring_spec (s : State) :
    (removeLines s).rows = s.rows + (removeLinesScan s.blocks).2 ∧
    (removeLines s).score
      = s.score + (if (removeLinesScan s.blocks).2 = 0 then 0
                   else 100 * 2 ^ ((removeLinesScan s.blocks).2 - 1)) ∧
    (removeLines s).vscore = s.vscore := by
  rcases Nat.eq_zero_or_pos (removeLinesScan s.blocks).2 with h | h
  · simp [removeLines, addScore, addRows, setRows, h]
  · have hne : (removeLinesScan s.blocks).2 ≠ 0 := Nat.pos_iff_ne_zero.mp h
    simp [removeLines, addScore, addRows, setRows, h, hne]

/-! ### Board occupancy queries (`getBlock`) -/

/-- C5 counterexample: querying `x = -1` against a board with a full
bottom row returns the placed block of the last column — Python
negative indexing reads `blocks[-1]` — not an empty/falsy value as the
claim states. -/
theorem getBlockPy_negative_returns_block :
    getBlockPy wrapBoard (-1) 0 = some (some pieceZ) := by
  decide

/-- C5 (amended): for out-of-range coordinates on the non-negative
side (`x ≥ nx` or `y ≥ ny`, board within its court bounds), `getBlock`
returns Python `None` without failing; negative coordinates, however,
are handled by Python negative indexing and may return a placed block
(or raise `IndexError` for a large negative index). -/
theorem getBlockPy_out_of_range (bs : Blocks) (x y : Int)
    (hok : boardOK bs) (hx : 0 ≤ x) (_hy : 0 ≤ y)
    (hout : (nx : Int) ≤ x ∨ (ny : Int) ≤ y) :
    getBlockPy bs x y = some none := by
  unfold getBlockPy
  by_cases hnil : bs = []
  · rw [if_pos hnil]
  · rw [if_neg hnil]
    by_cases hlt : x < (bs.length : Int)
    · rw [if_pos hlt]
      have hlen : bs.length ≤ nx := hok.1
      have hxn : x.toNat < bs.length := by omega
      have hpy : pyIdx bs x = some (bs.get ⟨x.toNat, hxn⟩) := by
        unfold pyIdx
        rw [if_pos hx, List.get?_eq_getElem?, List.getElem?_eq_getElem hxn]
        rfl
      rw [hpy]
      have hcol : (bs.get ⟨x.toNat, hxn⟩).length ≤ ny := by
        refine hok.2 _ ?_
        rw [List.get_eq_getElem]
        exact List.getElem_mem hxn
      rw [show (match some (bs.get ⟨x.toNat, hxn⟩) with
            | none => none
            | some col => if y < (col.length : Int) then pyIdx col y else some none)
          = if y < ((bs.get ⟨x.toNat, hxn⟩).length : Int)
            then pyIdx (bs.get ⟨x.toNat, hxn⟩) y else some none from rfl]
      rw [if_neg (by
        rcases hout with h | h
        · omega
        · omega)]
    · rw [if_neg hlt]

/-- Witness for the amended C5 at a concrete input: the query at
`(12, 0)`, one column beyond the court, on a court-shaped board. -/
theorem getBlockPy_out_of_range_witness :
    boardOK wrapBoard ∧ getBlockPy wrapBoard 12 0 = some none :=
  ⟨by decide, getBlockPy_out_of_range wrapBoard 12 0 (by decide) (by decide)
    (by decide) (by decide)⟩

/-! ### Moving and rotating the active piece -/

/-- C8: for a direction in {left, right, down}, `move` forms the
one-cell-offset candidate; when the candidate is free it commits
exactly the new coordinates and returns success, otherwise it returns
failure with the whole state unchanged — in either case no other field
of the state is touched. -/
theorem move_spec (s : State) (d : Nat)
    (hd : d = DIR_RIGHT ∨ d = DIR_LEFT ∨ d = DIR_DOWN) :
    (unoccupied s.blocks s.current.type
        (if d = DIR_RIGHT then (s.current.x + 1, s.current.y)
         else if d = DIR_LEFT then (s.current.x - 1, s.current.y)
         else (s.current.x, s.current.y + 1)).1
        (if d = DIR_RIGHT then (s.current.x + 1, s.current.y)
         else if d = DIR_LEFT then (s.current.x - 1, s.current.y)
         else (s.current.x, s.current.y + 1)).2 s.current.dir = true →
      move s d = (true, { s with current := { s.current with
        x := (if d = DIR_RIGHT then (s.current.x + 1, s.current.y)
              else if d = DIR_LEFT then (s.current.x - 1, s.current.y)
              else (s.current.x, s.current.y + 1)).1,
        y := (if d = DIR_RIGHT then (s.current.x + 1, s.current.y)
              else if d = DIR_LEFT then (s.current.x - 1, s.current.y)
              else (s.current.x, s.current.y + 1)).2 } })) ∧
    (unoccupied s.blocks s.current.type
        (if d = DIR_RIGHT then (s.current.x + 1, s.current.y)
         else if d = DIR_LEFT then (s.current.x - 1, s.current.y)
         else (s.current.x, s.current.y + 1)).1
        (if d = DIR_RIGHT then (s.current.x + 1, s.current.y)
         else if d = DIR_LEFT then (s.current.x - 1, s.current.y)
         else (s.current.x, s.current.y + 1)).2 s.current.dir = false →
      move s d = (false, s)) := by
  rcases hd with h | h | h <;> subst h <;>
    constructor <;> intro hu <;>
    simp [move, DIR_RIGHT, DIR_LEFT, DIR_DOWN] at hu ⊢ <;>
    simp [hu]

/-- Witness for C8 at a concrete input: moving the free-floating O
piece down commits `(5, 6)` and succeeds. -/
theorem move_spec_witness :
    (DIR_DOWN = DIR_RIGHT ∨ DIR_DOWN = DIR_LEFT ∨ DIR_DOWN = DIR_DOWN) ∧
      move freeState DIR_DOWN
        = (true, { freeState with current := { freeState.current with x := 5, y := 6 } }) :=
  ⟨by decide, (move_spec freeState DIR_DOWN (by decide)).1 (by decide)⟩

/-- C10: calling `move` with a direction outside {right, left, down}
(such as the up/rotate code 0) applies no offset: when the current
placement is free it recommits the identical coordinates and reports
success, leaving the state unchanged. -/
theorem move_invalid_direction_noop (s : State) (d : Nat)
    (h1 : d ≠ DIR_RIGHT) (h2 : d ≠ DIR_LEFT) (h3 : d ≠ DIR_DOWN)
    (hf : unoccupied s.blocks s.current.type s.current.x s.current.y s.current.dir = true) :
    move s d = (true, s) := by
  simp [move, h1, h2, h3, hf]

/-- Witness for C10 at a concrete input: `move` with the UP code on
the free-floating O piece is a successful no-op. -/
theorem move_invalid_direction_noop_witness :
    (DIR_UP ≠ DIR_RIGHT) ∧
      unoccupied freeState.blocks freeState.current.type freeState.current.x
        freeState.current.y freeState.current.dir = true ∧
      move freeState DIR_UP = (true, freeState) :=
  ⟨by decide, by decide,
    move_invalid_direction_noop freeState DIR_UP (by decide) (by decide) (by decide) (by decide)⟩

/-- C9: `rotate` uses the candidate rotation `(dir + 1) % 4` and
commits it exactly when the piece is free at its unchanged position
with that rotation (no wall-kick search); and four `rotate` calls with
every candidate orientation unobstructed return the piece to its
original rotation. -/
theorem rotate_spec (s : State) (h : s.current.dir < 4) :
    (rotate s
      = if unoccupied s.blocks s.current.type s.current.x s.current.y
            ((s.current.dir + 1) % 4) = true
        then { s with current := { s.current with dir := (s.current.dir + 1) % 4 } }
        else s) ∧
    ((∀ d, d < 4 → unoccupied s.blocks s.current.type s.current.x s.current.y d = true) →
      (rotate (rotate (rotate (rotate s)))).current.dir = s.current.dir) := by
  obtain ⟨bs, ac, pl, dt, cur, nxt, sc, vs, rws, stp, lst⟩ := s
  obtain ⟨ty, dir, cx, cy⟩ := cur
  simp only at h
  constructor
  · interval_cases dir <;> simp [rotate, DIR_MAX, DIR_MIN]
  · intro hf
    have h0 := hf 0 (by omega)
    have h1 := hf 1 (by omega)
    have h2 := hf 2 (by omega)
    have h3 := hf 3 (by omega)
    simp only at h0 h1 h2 h3
    interval_cases dir <;> simp [rotate, DIR_MAX, DIR_MIN, h0, h1, h2, h3]

/-- Witness for C9 at a concrete input: four rotations of the
free-floating O piece on the empty board return rotation 0. -/
theorem rotate_spec_witness :
    freeState.current.dir < 4 ∧
      (rotate (rotate (rotate (rotate freeState)))).current.dir = freeState.current.dir :=
  ⟨by decide, (rotate_spec freeState (by decide)).2 (by decide)⟩

/-! ### Locking a piece into the board -/

/-- Cell-level description of `lock`: a cell listed among the written
cells reads back the locked piece, every other cell is unchanged.
Duplicate writes are harmless because every write stores the same
piece. -/
theorem getBlock_lock (t : Piece) :
    ∀ (cs : List (Int × Int)) (bs : Blocks) (a b : Nat),
      getBlock (lock bs cs t) a b
        = if ∃ c ∈ cs, c.1.toNat = a ∧ c.2.toNat = b then some t else getBlock bs a b := by
  intro cs
  induction cs with
  | nil =>
    intro bs a b
    simp [lock]
  | cons c cs ih =>
    intro bs a b
    rw [show lock bs (c :: cs) t = lock (setBlock bs c.1.toNat c.2.toNat (some t)) cs t from rfl,
      ih, getBlock_setBlock]
    by_cases h1 : ∃ e ∈ cs, e.1.toNat = a ∧ e.2.toNat = b
    · rw [if_pos h1, if_pos (by
        obtain ⟨e, he, hea, heb⟩ := h1
        exact ⟨e, List.mem_cons_of_mem c he, hea, heb⟩)]
    · rw [if_neg h1]
      by_cases h2 : c.1.toNat = a ∧ c.2.toNat = b
      · rw [if_pos h2, if_pos ⟨c, List.mem_cons_self c cs, h2⟩]
      · rw [if_neg h2, if_neg (by
          rintro ⟨e, he, hea, heb⟩
          rcases List.mem_cons.mp he with h | h
          · exact h2 (h ▸ ⟨hea, heb⟩)
          · exact h1 ⟨e, h, hea, heb⟩)]

/-- Field-level description of `removeLines` as a state transformer:
the board becomes the scan result, `rows` and `score` absorb the scan
count and its bonus, `step` is re-clamped to 500 when any row was
cleared, and every other field is untouched. -/
theorem removeLines_proj (s : State) :
    (removeLines s).blocks = (removeLinesScan s.blocks).1 ∧
    (removeLines s).score = s.score + (if (removeLinesScan s.blocks).2 = 0 then 0
        else 100 * 2 ^ ((removeLinesScan s.blocks).2 - 1)) ∧
    (removeLines s).rows = s.rows + (removeLinesScan s.blocks).2 ∧
    (removeLines s).current = s.current ∧
    (removeLines s).next = s.next ∧
    (removeLines s).actions = s.actions ∧
    (removeLines s).dt = s.dt ∧
    (removeLines s).vscore = s.vscore ∧
    (removeLines s).playing = s.playing ∧
    (removeLines s).lost = s.lost ∧
    (removeLines s).step = (if (removeLinesScan s.blocks).2 = 0 then s.step else 500) := by
  rcases Nat.eq_zero_or_pos (removeLinesScan s.blocks).2 with h | h
  · simp [removeLines, addScore, addRows, setRows, h]
  · have hne := Nat.pos_iff_ne_zero.mp h
    simp [removeLines, addScore, addRows, setRows, h, hne]

/-- C6: when `drop` is called and the active piece cannot move down:
10 points are added to the score, every occupied cell of the current
piece is written into the board, line clearing runs on the locked
board (contributing its own row count and score bonus), the next piece
becomes current, the freshly drawn piece `p` becomes next, the action
queue is emptied, and exactly when the promoted piece is occupied at
its spawn placement the game transitions to lost
(`playing = false`, `lost = true`); otherwise both flags are
untouched.  The clock field `dt` and the displayed score `vscore` are
not touched either way. -/
theorem drop_lock_spec (s : State) (p : ActivePiece)
    (hmv : occupied s.blocks s.current.type s.current.x (s.current.y + 1) s.current.dir = true) :
    (drop s p).blocks
      = (removeLinesScan (lock s.blocks
          (pieceCells s.current.type s.current.x s.current.y s.current.dir) s.current.type)).1 ∧
    (∀ c ∈ pieceCells s.current.type s.current.x s.current.y s.current.dir,
      getBlock (lock s.blocks
          (pieceCells s.current.type s.current.x s.current.y s.current.dir) s.current.type)
        c.1.toNat c.2.toNat = some s.current.type) ∧
    (drop s p).score
      = s.score + 10 + (if (removeLinesScan (lock s.blocks
            (pieceCells s.current.type s.current.x s.current.y s.current.dir) s.current.type)).2 = 0
          then 0
          else 100 * 2 ^ ((removeLinesScan (lock s.blocks
            (pieceCells s.current.type s.current.x s.current.y s.current.dir) s.current.type)).2 - 1)) ∧
    (drop s p).rows
      = s.rows + (removeLinesScan (lock s.blocks
          (pieceCells s.current.type s.current.x s.current.y s.current.dir) s.current.type)).2 ∧
    (drop s p).current = s.next ∧
    (drop s p).next = p ∧
    (drop s p).actions = [] ∧
    (drop s p).dt = s.dt ∧
    (drop s p).vscore = s.vscore ∧
    (occupied (removeLinesScan (lock s.blocks
          (pieceCells s.current.type s.current.x s.current.y s.current.dir) s.current.type)).1
        s.next.type s.next.x s.next.y s.next.dir = true →
      (drop s p).playing = false ∧ (drop s p).lost = true) ∧
    (occupied (removeLinesScan (lock s.blocks
          (pieceCells s.current.type s.current.x s.current.y s.current.dir) s.current.type)).1
        s.next.type s.next.x s.next.y s.next.dir = false →
      (drop s p).playing = s.playing ∧ (drop s p).lost = s.lost) := by
  have hlockmem : ∀ (a b : Int),
      (a, b) ∈ pieceCells s.current.type s.current.x s.current.y s.current.dir →
      getBlock (lock s.blocks
          (pieceCells s.current.type s.current.x s.current.y s.current.dir) s.current.type)
        a.toNat b.toNat = some s.current.type := by
    intro a b hc
    rw [getBlock_lock, if_pos ⟨(a, b), hc, rfl, rfl⟩]
  obtain ⟨bs, ac, pl, dtv, cur, nxt, sc, vs, rws, stp, lst⟩ := s
  simp only at hmv hlockmem ⊢
  have hmove : move ⟨bs, ac, pl, dtv, cur, nxt, sc, vs, rws, stp, lst⟩ DIR_DOWN
      = (false, ⟨bs, ac, pl, dtv, cur, nxt, sc, vs, rws, stp, lst⟩) := by
    simp [move, DIR_RIGHT, DIR_LEFT, DIR_DOWN, unoccupied, hmv]
  refine ⟨?_, fun c hc => hlockmem c.1 c.2 hc, ?_, ?_, ?_, ?_, ?_, ?_, ?_, ?_, ?_⟩ <;>
  · rw [drop, hmove]
    rcases Nat.eq_zero_or_pos
        (removeLinesScan (lock bs (pieceCells cur.type cur.x cur.y cur.dir) cur.type)).2
      with hn | hn
    · by_cases hoc : occupied
          (removeLinesScan (lock bs (pieceCells cur.type cur.x cur.y cur.dir) cur.type)).1
          nxt.type nxt.x nxt.y nxt.dir = true <;>
        simp [removeLines, dropPiece, addScore, addRows, setRows, lose, hn, hoc]
    · have hne := Nat.pos_iff_ne_zero.mp hn
      by_cases hoc : occupied
          (removeLinesScan (lock bs (pieceCells cur.type cur.x cur.y cur.dir) cur.type)).1
          nxt.type nxt.x nxt.y nxt.dir = true <;>
        simp [removeLines, dropPiece, addScore, addRows, setRows, lose, hn, hne, hoc]

set_option maxRecDepth 1000000 in
/-- Witness for C6 at a concrete input: the O piece resting on the
floor of the empty board locks; the S piece is promoted and the game
keeps playing. -/
theorem drop_lock_spec_witness :
    occupied lockState.blocks lockState.current.type lockState.current.x
      (lockState.current.y + 1) lockState.current.dir = true ∧
    (drop lockState oSpawn).score = 10 ∧
    (drop lockState oSpawn).current = lockState.next ∧
    (drop lockState oSpawn).playing = true := by
  have h := drop_lock_spec lockState oSpawn (by decide)
  refine ⟨by decide, ?_, h.2.2.2.2.1, ?_⟩
  · rw [h.2.2.1]
    decide
  · rw [(h.2.2.2.2.2.2.2.2.2.2 (by decide)).1]
    rfl

/-! ### The game clock -/

theorem dt_move (s : State) (d : Nat) : (move s d).2.dt = s.dt := by
  unfold move
  dsimp only
  repeat' split
  all_goals rfl

theorem dt_removeLines (s : State) : (removeLines s).dt = s.dt :=
  (removeLines_proj s).2.2.2.2.2.2.1

/-- `drop` never touches the clock accumulator. -/
theorem dt_drop (s : State) (p : ActivePiece) : (drop s p).dt = s.dt := by
  rw [drop]
  dsimp only
  split
  · exact dt_move s DIR_DOWN
  · split <;> simp [lose, dt_removeLines, dropPiece, addScore, dt_move]

/-- C4 counterexample: from a playing state with `dt = 0` and
`step = 500`, a tick of 1500 ms performs a single auto-drop (the O
piece descends one row, to `y = 1`, not three) and leaves `dt = 1000`,
outside `[0, 500)` — the source uses `if dt > step`, not a `while`
loop, so the accumulator is not normalized and only one drop occurs. -/
theorem update_clock_counterexample :
    (update clockState 1500 none oSpawn oSpawn).dt = 1000 ∧
      (update clockState 1500 none oSpawn oSpawn).current.y = 1 := by
  constructor <;> decide

/-- C4 (amended): each tick adds `deltaMs` to the accumulated elapsed
time and then, on a single `if` (not a `while`), subtracts one
`dropIntervalMs` and invokes `drop()` once when the accumulated time
exceeds the interval; with a pathologically large `deltaMs` the
remaining accumulated time may exceed the interval (it is not
normalized into `[0, dropIntervalMs)`), and the excess is consumed one
drop per subsequent tick. -/
theorem update_single_autodrop (s : State) (δ : Nat) (p1 p2 : ActivePiece)
    (hp : s.playing = true) (ha : s.actions = []) :
    (update s δ none p1 p2).dt
      = if s.dt + δ > s.step then s.dt + δ - s.step else s.dt + δ := by
  have hconsume : ∀ u : State, (if u.lost = true then { u with lost := false } else u).dt = u.dt := by
    intro u
    split <;> rfl
  obtain ⟨bs, ac, pl, dtv, cur, nxt, sc, vs, rws, stp, lst⟩ := s
  simp only at hp ha
  subst hp
  subst ha
  dsimp only
  rw [update]
  dsimp only
  rw [show (if (none : Option Button) = some Button.cancel
        then lose ⟨bs, [], true, dtv, cur, nxt, sc, vs, rws, stp, lst⟩
        else if (⟨bs, [], true, dtv, cur, nxt, sc, vs, rws, stp, lst⟩ : State).playing
          then pushButton ⟨bs, [], true, dtv, cur, nxt, sc, vs, rws, stp, lst⟩ none
          else ⟨bs, [], true, dtv, cur, nxt, sc, vs, rws, stp, lst⟩)
      = (⟨bs, [], true, dtv, cur, nxt, sc, vs, rws, stp, lst⟩ : State) from rfl]
  rw [hconsume]
  rw [tickPlay]
  rw [if_pos (rfl : (⟨bs, [], true, dtv, cur, nxt, sc, vs, rws, stp, lst⟩ : State).playing = true)]
  dsimp only
  have hh : ∀ (u : State) (q : ActivePiece), handle u none q = u := by
    intro u q
    simp [handle]
  by_cases hvs : vs < sc
  · rw [if_pos hvs]
    dsimp only [popAction]
    rw [hh]
    dsimp only
    by_cases hd : stp < dtv + δ
    · rw [if_pos hd, if_pos hd, dt_drop]
    · rw [if_neg hd, if_neg hd]
  · rw [if_neg hvs]
    dsimp only [popAction]
    rw [hh]
    dsimp only
    by_cases hd : stp < dtv + δ
    · rw [if_pos hd, if_pos hd, dt_drop]
    · rw [if_neg hd, if_neg hd]

/-- Witness for the amended C4 at a concrete input: `dt` after a
1500 ms tick from `dt = 0`, `step = 500` is `0 + 1500 - 500 = 1000`. -/
theorem update_single_autodrop_witness :
    clockState.playing = true ∧ clockState.actions = [] ∧
      (update clockState 1500 none oSpawn oSpawn).dt = 1000 :=
  ⟨rfl, rfl, by
    have h := update_single_autodrop clockState 1500 oSpawn oSpawn rfl rfl
    simpa using h⟩

/-! ### The tick invariant -/

/-- A piece placed free of the board has all its cells in bounds: the
collision check rejects any out-of-bounds cell. -/
theorem cells_bounded_of_unoccupied (bs : Blocks) (t : Piece) (x y : Int) (dir : Nat)
    (h : occupied bs t x y dir = false) :
    ∀ c ∈ pieceCells t x y dir,
      0 ≤ c.1 ∧ c.1 < (nx : Int) ∧ 0 ≤ c.2 ∧ c.2 < (ny : Int) := by
  intro c hc
  rw [occupied, List.any_eq_false] at h
  have hc' := h c hc
  simp only [Bool.not_eq_true, Bool.or_eq_false_iff, decide_eq_false_iff_not,
    not_lt, not_le] at hc'
  obtain ⟨⟨⟨⟨ha, hb⟩, hc2⟩, hd⟩, -⟩ := hc'
  exact ⟨ha, hb, hc2, hd⟩

theorem getD_length_le (bs : Blocks) (x : Nat) (h : ∀ col ∈ bs, col.length ≤ ny) :
    (bs.getD x []).length ≤ ny := by
  rcases Nat.lt_or_ge x bs.length with hx | hx
  · refine h _ ?_
    rw [List.getD_eq_getElem?_getD, List.getElem?_eq_getElem hx]
    exact List.getElem_mem hx
  · rw [List.getD_eq_getElem?_getD, List.getElem?_eq_none hx]
    exact Nat.zero_le ny

/-- Writing a court cell keeps the board within the court bounds. -/
theorem boardOK_setBlock (bs : Blocks) (x y : Nat) (t : Option Piece)
    (h : boardOK bs) (hx : x < nx) (hy : y < ny) : boardOK (setBlock bs x y t) := by
  obtain ⟨h1, h2⟩ := h
  rw [show setBlock bs x y t
      = (padTo bs x []).set x ((padTo ((padTo bs x []).getD x []) y none).set y t) from rfl]
  constructor
  · rw [List.length_set]
    unfold padTo
    split
    · simp only [List.length_append, List.length_replicate]
      omega
    · exact h1
  · have hpads : ∀ c ∈ padTo bs x ([] : List (Option Piece)), c.length ≤ ny := by
      intro c hc
      unfold padTo at hc
      split at hc
      · rcases List.mem_append.mp hc with hc | hc
        · exact h2 _ hc
        · rw [List.eq_of_mem_replicate hc]
          exact Nat.zero_le ny
      · exact h2 _ hc
    intro col hcol
    rcases List.mem_or_eq_of_mem_set hcol with hmem | heq
    · exact hpads _ hmem
    · subst heq
      rw [List.length_set]
      have hcol2 : ((padTo bs x []).getD x []).length ≤ ny := getD_length_le _ _ hpads
      set colx := (padTo bs x ([] : List (Option Piece))).getD x [] with hcx
      unfold padTo
      split
      · simp only [List.length_append, List.length_replicate]
        omega
      · exact hcol2

/-- Locking a piece whose cells are all within the court keeps the
board within its bounds. -/
theorem boardOK_lock (t : Piece) :
    ∀ (cs : List (Int × Int)) (bs : Blocks), boardOK bs →
      (∀ c ∈ cs, 0 ≤ c.1 ∧ c.1 < (nx : Int) ∧ 0 ≤ c.2 ∧ c.2 < (ny : Int)) →
      boardOK (lock bs cs t) := by
  intro cs
  induction cs with
  | nil =>
    intro bs h _
    exact h
  | cons c cs ih =>
    intro bs h hc
    rw [show lock bs (c :: cs) t = lock (setBlock bs c.1.toNat c.2.toNat (some t)) cs t from rfl]
    refine ih _ ?_ (fun e he => hc e (List.mem_cons_of_mem c he))
    have hcc := hc c (List.mem_cons_self c cs)
    exact boardOK_setBlock _ _ _ _ h (by omega) (by omega)

/-- The row-copy fold of `removeLine` keeps the board within its
bounds when the destination row is a court row. -/
theorem boardOK_copyFold (y : Nat) (hy : y < ny) :
    ∀ (xs : List Nat) (bs : Blocks), (∀ x ∈ xs, x < nx) → boardOK bs →
      boardOK (xs.foldl (fun bb x => setBlock bb x y (getBlock bb x (y - 1))) bs) := by
  intro xs
  induction xs with
  | nil =>
    intro bs _ h
    exact h
  | cons x xs ih =>
    intro bs hxs h
    rw [List.foldl_cons]
    exact ih _ (fun e he => hxs e (List.mem_cons_of_mem x he))
      (boardOK_setBlock _ _ _ _ h (hxs x (List.mem_cons_self x xs)) hy)

theorem boardOK_removeLine : ∀ (n : Nat) (bs : Blocks), n < ny → boardOK bs →
    boardOK (removeLine bs n) := by
  intro n
  induction n with
  | zero =>
    intro bs _ h
    exact h
  | succ n ih =>
    intro bs hn h
    rw [removeLine]
    refine ih _ (by omega) ?_
    rw [copyRow]
    exact boardOK_copyFold (n + 1) hn _ _ (fun x hx => List.mem_range.mp hx) h

/-- The full line-clearing scan keeps the board within its bounds. -/
theorem boardOK_removeLinesScan (bs : Blocks) (h : boardOK bs) :
    boardOK (removeLinesScan bs).1 := by
  rw [removeLinesScan]
  have hgen : ∀ (ys : List Nat) (b : Blocks) (n : Nat), (∀ y ∈ ys, y < ny) → boardOK b →
      boardOK (ys.foldl scanStep (b, n)).1 := by
    intro ys
    induction ys with
    | nil =>
      intro b n _ hb
      exact hb
    | cons y ys ih =>
      intro b n hys hb
      rw [List.foldl_cons]
      rw [scanStep]
      split
      · exact ih _ _ (fun e he => hys e (List.mem_cons_of_mem y he))
          (boardOK_removeLine y b (hys y (List.mem_cons_self y ys)) hb)
      · exact ih _ _ (fun e he => hys e (List.mem_cons_of_mem y he)) hb
  refine hgen _ _ _ ?_ h
  intro y hy
  rw [List.mem_reverse, List.mem_range] at hy
  exact hy

/-- A failed `move` leaves the state untouched. -/
theorem move_false (s : State) (d : Nat) (h : (move s d).1 = false) : (move s d).2 = s := by
  rw [move] at h ⊢
  by_cases hu : unoccupied s.blocks s.current.type
      (if d = DIR_RIGHT then (s.current.x + 1, s.current.y)
       else if d = DIR_LEFT then (s.current.x - 1, s.current.y)
       else if d = DIR_DOWN then (s.current.x, s.current.y + 1)
       else (s.current.x, s.current.y)).1
      (if d = DIR_RIGHT then (s.current.x + 1, s.current.y)
       else if d = DIR_LEFT then (s.current.x - 1, s.current.y)
       else if d = DIR_DOWN then (s.current.x, s.current.y + 1)
       else (s.current.x, s.current.y)).2 s.current.dir = true
  · rw [if_pos hu] at h
    simp at h
  · rw [if_neg hu]

theorem inv_move (s : State) (d : Nat) (h : Inv s) : Inv (move s d).2 := by
  obtain ⟨h1, h2, h3, h4⟩ := h
  rw [move]
  by_cases hu : unoccupied s.blocks s.current.type
      (if d = DIR_RIGHT then (s.current.x + 1, s.current.y)
       else if d = DIR_LEFT then (s.current.x - 1, s.current.y)
       else if d = DIR_DOWN then (s.current.x, s.current.y + 1)
       else (s.current.x, s.current.y)).1
      (if d = DIR_RIGHT then (s.current.x + 1, s.current.y)
       else if d = DIR_LEFT then (s.current.x - 1, s.current.y)
       else if d = DIR_DOWN then (s.current.x, s.current.y + 1)
       else (s.current.x, s.current.y)).2 s.current.dir = true
  · rw [if_pos hu]
    simp only [unoccupied, Bool.not_eq_true'] at hu
    exact ⟨h1, fun _ => hu, cells_bounded_of_unoccupied _ _ _ _ _ hu, h4⟩
  · rw [if_neg hu]
    exact ⟨h1, h2, h3, h4⟩

theorem inv_rotate (s : State) (h : Inv s) : Inv (rotate s) := by
  obtain ⟨h1, h2, h3, h4⟩ := h
  rw [rotate]
  by_cases hu : unoccupied s.blocks s.current.type s.current.x s.current.y
      (if s.current.dir = DIR_MAX then DIR_MIN else s.current.dir + 1) = true
  · rw [if_pos hu]
    simp only [unoccupied, Bool.not_eq_true'] at hu
    exact ⟨h1, fun _ => hu, cells_bounded_of_unoccupied _ _ _ _ _ hu, h4⟩
  · rw [if_neg hu]
    exact ⟨h1, h2, h3, h4⟩

theorem inv_lose (s : State) (h : Inv s) : Inv (lose s) := by
  obtain ⟨h1, h2, h3, h4⟩ := h
  exact ⟨h1, fun hp => by simp [lose] at hp, h3, h4⟩

/-- The lock-promote-check tail of `drop`: if the promoted piece and
board are well formed, the final occupancy check yields an invariant
state whichever way it goes. -/
theorem inv_promote (bs2 : Blocks) (ac : List Nat) (pl : Bool) (d : Nat)
    (cur nxt : ActivePiece) (sc vs rw2 st : Nat) (lst : Bool)
    (hb : boardOK bs2) (hcur : cellsWithin cur) (hnxt : cellsWithin nxt) :
    Inv (if occupied bs2 cur.type cur.x cur.y cur.dir = true
         then lose ⟨bs2, ac, pl, d, cur, nxt, sc, vs, rw2, st, lst⟩
         else ⟨bs2, ac, pl, d, cur, nxt, sc, vs, rw2, st, lst⟩) := by
  by_cases hoc : occupied bs2 cur.type cur.x cur.y cur.dir = true
  · rw [if_pos hoc]
    exact ⟨hb, fun hpl => by simp [lose] at hpl, hcur, hnxt⟩
  · rw [if_neg hoc]
    rw [Bool.not_eq_true] at hoc
    exact ⟨hb, fun _ => hoc, hcur, hnxt⟩

set_option maxRecDepth 100000 in
set_option maxHeartbeats 1600000 in
theorem inv_drop (s : State) (p : ActivePiece) (h : Inv s) (hp : cellsWithin p) :
    Inv (drop s p) := by
  rw [drop]
  dsimp only
  split
  · exact inv_move s DIR_DOWN h
  · obtain ⟨h1, h2, h3, h4⟩ := h
    have hm2 : (move s DIR_DOWN).2 = s := by
      rename_i hmv
      rw [Bool.not_eq_true] at hmv
      exact move_false s DIR_DOWN hmv
    rw [hm2]
    have hP := removeLines_proj (dropPiece (addScore s 10))
    rw [hP.1, hP.2.2.2.2.1, hP.2.2.2.2.2.2.1, hP.2.2.2.2.2.2.2.1,
      hP.2.2.2.2.2.2.2.2.1, hP.2.2.2.2.2.2.2.2.2.1, hP.2.2.2.2.2.2.2.2.2.2,
      hP.2.1, hP.2.2.1]
    have hXb : (dropPiece (addScore s 10)).blocks
        = lock s.blocks (pieceCells s.current.type s.current.x s.current.y s.current.dir)
            s.current.type := rfl
    have hXnext : (dropPiece (addScore s 10)).next = s.next := rfl
    have hXplay : (dropPiece (addScore s 10)).playing = s.playing := rfl
    have hXdt : (dropPiece (addScore s 10)).dt = s.dt := rfl
    have hXvs : (dropPiece (addScore s 10)).vscore = s.vscore := rfl
    have hXlost : (dropPiece (addScore s 10)).lost = s.lost := rfl
    have hXstep : (dropPiece (addScore s 10)).step = s.step := rfl
    have hXscore : (dropPiece (addScore s 10)).score = s.score + 10 := rfl
    have hXrows : (dropPiece (addScore s 10)).rows = s.rows := rfl
    rw [hXb, hXnext, hXplay, hXdt, hXvs, hXlost, hXstep, hXscore, hXrows]
    have hscanOK : boardOK (removeLinesScan (lock s.blocks
        (pieceCells s.current.type s.current.x s.current.y s.current.dir) s.current.type)).1 :=
      boardOK_removeLinesScan _ (boardOK_lock _ _ _ h1 h3)
    exact inv_promote _ _ _ _ _ _ _ _ _ _ _ hscanOK h4 hp

theorem inv_handle (s : State) (a : Option Nat) (p : ActivePiece) (h : Inv s)
    (hp : cellsWithin p) : Inv (handle s a p) := by
  rw [handle]
  repeat' split
  · exact inv_move _ _ h
  · exact inv_move _ _ h
  · exact inv_rotate _ h
  · exact inv_drop _ _ h hp
  · exact h

theorem inv_pushButton (s : State) (btn : Option Button) (h : Inv s) :
    Inv (pushButton s btn) := by
  obtain ⟨h1, h2, h3, h4⟩ := h
  rcases btn with _ | b
  · exact ⟨h1, h2, h3, h4⟩
  · cases b <;> exact ⟨h1, h2, h3, h4⟩

theorem inv_tickPlay (s : State) (δ : Nat) (p1 p2 : ActivePiece) (h : Inv s)
    (h1 : cellsWithin p1) (h2 : cellsWithin p2) : Inv (tickPlay s δ p1 p2) := by
  rw [tickPlay]
  by_cases hpl : s.playing = true
  · rw [if_pos hpl]
    dsimp only
    set A := if s.vscore < s.score then { s with vscore := s.vscore + 1 } else s with hA_def
    have hA : Inv A := by
      rw [hA_def]
      by_cases hv : s.vscore < s.score
      · rw [if_pos hv]
        exact ⟨h.1, h.2.1, h.2.2.1, h.2.2.2⟩
      · rw [if_neg hv]
        exact h
    have hpop : Inv (popAction A).2 := by
      rw [popAction]
      rcases hac : A.actions with _ | ⟨a, rest⟩
      · exact hA
      · exact ⟨hA.1, hA.2.1, hA.2.2.1, hA.2.2.2⟩
    have hB : Inv (handle (popAction A).2 (popAction A).1 p1) :=
      inv_handle _ _ _ hpop h1
    by_cases hck : (handle (popAction A).2 (popAction A).1 p1).dt + δ
        > (handle (popAction A).2 (popAction A).1 p1).step
    · rw [if_pos hck]
      exact inv_drop _ _ ⟨hB.1, hB.2.1, hB.2.2.1, hB.2.2.2⟩ h2
    · rw [if_neg hck]
      exact ⟨hB.1, hB.2.1, hB.2.2.1, hB.2.2.2⟩
  · rw [if_neg hpl]
    exact h

theorem inv_update (s : State) (δ : Nat) (btn : Option Button) (p1 p2 : ActivePiece)
    (h : Inv s) (h1 : cellsWithin p1) (h2 : cellsWithin p2) :
    Inv (update s δ btn p1 p2) := by
  rw [update]
  set S1 := if btn = some Button.cancel then lose s
      else if s.playing = true then pushButton s btn else s with hS1
  have hs1 : Inv S1 := by
    rw [hS1]
    by_cases hc : btn = some Button.cancel
    · rw [if_pos hc]
      exact inv_lose s h
    · rw [if_neg hc]
      by_cases hp2 : s.playing = true
      · rw [if_pos hp2]
        exact inv_pushButton s btn h
      · rw [if_neg hp2]
        exact h
  have hs2 := inv_tickPlay S1 δ p1 p2 hs1 h1 h2
  by_cases hl : (tickPlay S1 δ p1 p2).lost = true
  · rw [if_pos hl]
    exact ⟨hs2.1, hs2.2.1, hs2.2.2.1, hs2.2.2.2⟩
  · rw [if_neg hl]
    exact hs2

set_option maxRecDepth 1000000 in
/-- C3 counterexample: from a state satisfying the tick invariant —
one placed block at cell (0, 0), the current piece resting on the
floor, the next piece spawning at (0, 0) — a 501 ms tick locks the
current piece, promotes the next piece onto the placed block and loses
the game, leaving cell (0, 0) occupied by both a placed block and the
active piece after the tick: the claimed no-overlap invariant fails on
the losing tick. -/
theorem update_overlap_counterexample :
    Inv loseState ∧
    ((0 : Int), (0 : Int)) ∈ pieceCells (update loseState 501 none oSpawn oSpawn).current.type
        (update loseState 501 none oSpawn oSpawn).current.x
        (update loseState 501 none oSpawn oSpawn).current.y
        (update loseState 501 none oSpawn oSpawn).current.dir ∧
    (getBlock (update loseState 501 none oSpawn oSpawn).blocks 0 0).isSome = true ∧
    (update loseState 501 none oSpawn oSpawn).playing = false := by
  exact ⟨by decide, by decide, by decide, by decide⟩

/-- C3 (amended): every tick from a state satisfying the tick
invariant, fed spawn pieces whose cells are within the court, yields a
state in which every occupied board cell and every cell of the active
piece lies within `[0, nx) × [0, ny)`, and — as long as the game is
still playing — no board cell is occupied by both a placed block and
the active piece (on the tick that loses the game, the freshly spawned
piece may overlap the board; it is no longer in play or drawn). -/
theorem update_invariant_spec (s : State) (δ : Nat) (btn : Option Button)
    (p1 p2 : ActivePiece) (h : Inv s) (h1 : cellsWithin p1) (h2 : cellsWithin p2) :
    boardOK (update s δ btn p1 p2).blocks ∧
    cellsWithin (update s δ btn p1 p2).current ∧
    ((update s δ btn p1 p2).playing = true →
      occupied (update s δ btn p1 p2).blocks (update s δ btn p1 p2).current.type
        (update s δ btn p1 p2).current.x (update s δ btn p1 p2).current.y
        (update s δ btn p1 p2).current.dir = false) := by
  have hI := inv_update s δ btn p1 p2 h h1 h2
  exact ⟨hI.1, hI.2.2.1, hI.2.1⟩

set_option maxRecDepth 1000000 in
/-- Witness for the amended C3 at a concrete input: the losing tick of
the counterexample state still keeps every board and piece cell within
the court. -/
theorem update_invariant_spec_witness :
    Inv loseState ∧ cellsWithin oSpawn ∧
      boardOK (update loseState 501 none oSpawn oSpawn).blocks ∧
      cellsWithin (update loseState 501 none oSpawn oSpawn).current ∧
      ((update loseState 501 none oSpawn oSpawn).playing = true →
        occupied (update loseState 501 none oSpawn oSpawn).blocks
          (update loseState 501 none oSpawn oSpawn).current.type
          (update loseState 501 none oSpawn oSpawn).current.x
          (update loseState 501 none oSpawn oSpawn).current.y
          (update loseState 501 none oSpawn oSpawn).current.dir = false) :=
  ⟨by decide, by decide,
    update_invariant_spec loseState 501 none oSpawn oSpawn (by decide) (by decide) (by decide)⟩

end Tetris
